import Mathlib

/-!
# Verification of the spending-tracker trend pipeline

A shallow embedding of `app/modules/spending_tracker.py` (and the small parts of
`app/modules/database.py` it calls), together with proofs about the embedded
functions.

Conventions of the embedding:
* DataFrames are lists of records.  The `spending` table rows carry an integer
  amount (the schema declares `amount INTEGER`), a category string and a
  timestamp.
* Timestamps are modelled at day resolution.  Pandas' `'M'` and `'W'` resampling
  assigns a row to a bucket depending only on the calendar day of its timestamp
  (bin edges are adjusted to the end of the day for month/week frequencies), and
  the produced bucket labels are midnight-of-a-day timestamps, so nothing finer
  than the day is observable in `prepare_trend_data`'s output.
* Calendar arithmetic (proleptic Gregorian, as used by `pandas.Timestamp` and
  `datetime.date`) is modelled from first principles: `dayNumber` counts days
  since 1970-01-01, following the standard `toordinal`-style formula.
* Fallible Python code (raised exceptions) is modelled with `Except`/`Option`.
-/

/-! ## Calendar model (proleptic Gregorian, pandas/`datetime` semantics) -/

/-- Gregorian leap-year predicate, as implemented by `datetime`/`pandas`. -/
def isLeap (y : Int) : Prop :=
  (y % 4 = 0 ∧ y % 100 ≠ 0) ∨ y % 400 = 0

instance (y : Int) : Decidable (isLeap y) := by
  unfold isLeap; infer_instance

/-- Number of days in month `m` (1–12) of year `y`. -/
def daysInMonth (y : Int) (m : Nat) : Nat :=
  match m with
  | 1 => 31
  | 2 => if isLeap y then 29 else 28
  | 3 => 31
  | 4 => 30
  | 5 => 31
  | 6 => 30
  | 7 => 31
  | 8 => 31
  | 9 => 30
  | 10 => 31
  | 11 => 30
  | 12 => 31
  | _ => 1

/-- Cumulative days before month `m` in a non-leap year. -/
def monthOffset (m : Nat) : Int :=
  match m with
  | 1 => 0
  | 2 => 31
  | 3 => 59
  | 4 => 90
  | 5 => 120
  | 6 => 151
  | 7 => 181
  | 8 => 212
  | 9 => 243
  | 10 => 273
  | 11 => 304
  | 12 => 334
  | _ => 0

/-- Days in all years strictly before year `y`, counted from year 1
(`datetime.date.toordinal` convention, extended proleptically). -/
def daysBeforeYear (y : Int) : Int :=
  365 * (y - 1) + (y - 1) / 4 - (y - 1) / 100 + (y - 1) / 400

/-- Days before month `m` within year `y`. -/
def daysBeforeMonth (y : Int) (m : Nat) : Int :=
  monthOffset m + (if 2 < m ∧ isLeap y then 1 else 0)

/-- A calendar date, as carried by a `pandas.Timestamp` at day resolution. -/
structure Date where
  year : Int
  month : Nat
  day : Nat
deriving DecidableEq

/-- `d` denotes an actual calendar date. -/
def Date.Valid (d : Date) : Prop :=
  1 ≤ d.month ∧ d.month ≤ 12 ∧ 1 ≤ d.day ∧ d.day ≤ daysInMonth d.year d.month

instance (d : Date) : Decidable d.Valid := by
  unfold Date.Valid; infer_instance

/-- Days since 1970-01-01 (the ordinal of the date, shifted so that the Unix
epoch is day 0).  `719163` is the ordinal of 1970-01-01. -/
def dayNumber (d : Date) : Int :=
  daysBeforeYear d.year + daysBeforeMonth d.year d.month + (d.day : Int) - 719163

/-- Day of week of day number `n`: `0` = Sunday, …, `6` = Saturday.
1970-01-01 (day 0) was a Thursday (`4`). -/
def dayOfWeek (n : Int) : Int := (n + 4) % 7

/-! ## Resampling frequencies

The app calls `prepare_trend_data` with the pandas frequency strings `'M'`
(month end) and `'W'` (weekly, anchored on Sunday: `'W-SUN'`). -/

inductive Freq where
  | W : Freq
  | M : Freq
deriving DecidableEq

/-- The resampling bucket a timestamp falls in, as an integer index:
for `'M'` the zero-based month count (`12*year + month-1`); for `'W'` the index
of the Monday-to-Sunday week containing the day (pandas `'W' = 'W-SUN'` bins are
`(previous Sunday, Sunday]`, i.e. Monday through Sunday).  Sundays are exactly
the day numbers `≡ 3 (mod 7)`. -/
def bucketIdx (f : Freq) (d : Date) : Int :=
  match f with
  | .M => 12 * d.year + (d.month : Int) - 1
  | .W => (dayNumber d + 3) / 7

/-- Day number of the last day of the month with index `i`. -/
def monthEndDay (i : Int) : Int :=
  dayNumber ⟨i / 12, (i % 12).toNat + 1, daysInMonth (i / 12) ((i % 12).toNat + 1)⟩

/-- The timestamp label pandas attaches to bucket `i` of frequency `f`
(as a day number).  For `'M'` the label is the *last* day of the month; for
`'W'` (= `'W-SUN'`) it is the Sunday that *ends* the week. -/
def labelOf (f : Freq) (i : Int) : Int :=
  match f with
  | .M => monthEndDay i
  | .W => 3 + 7 * i

/-- First day (as a day number) of the period with bucket index `i`. -/
def periodStart (f : Freq) (i : Int) : Int :=
  match f with
  | .M => dayNumber ⟨i / 12, (i % 12).toNat + 1, 1⟩
  | .W => labelOf .W i - 6

/-! ## Integer ranges and list min/max (models of `pd.date_range` and
`Series.min()`/`Series.max()`) -/

/-- `intRangeAux n lo = [lo, lo+1, …, lo+n-1]`. -/
def intRangeAux : Nat → Int → List Int
  | 0, _ => []
  | n + 1, lo => lo :: intRangeAux n (lo + 1)

/-- The inclusive integer range `[lo, …, hi]` (empty when `hi < lo`). -/
def intRange (lo hi : Int) : List Int :=
  intRangeAux (hi - lo + 1).toNat lo

/-- Minimum of a list (`Series.min()`; `none` on an empty column, where pandas
yields `NaT`/`NaN`). -/
def listMin : List Int → Option Int
  | [] => none
  | x :: xs => some (xs.foldl min x)

/-- Maximum of a list (`Series.max()`). -/
def listMax : List Int → Option Int
  | [] => none
  | x :: xs => some (xs.foldl max x)

/-! ## The spending data model -/

/-- One row of the in-memory spending DataFrame, with the timestamp already
parsed (the state after line 159 of `spending_tracker.py`). -/
structure Record where
  amount : Int
  category : String
  timestamp : Date
deriving DecidableEq

/-- One row of `prepare_trend_data`'s output frame: a trend point.  The
`timestamp` field is the pandas bucket label as a day number. -/
structure TrendPoint where
  timestamp : Int
  amount : Int
  category : String
deriving DecidableEq

/-- Line 162: `spending_data[spending_data['category'] == selected_category]` —
exact, case-sensitive string match. -/
def matchingRecords (records : List Record) (cat : String) : List Record :=
  records.filter (fun r => r.category == cat)

/-- Line 166: `filtered_data.resample(freq).sum()`, keyed by bucket index.
Pandas produces one bin for every bucket between the first and last occupied
bucket (inclusive), summing the `amount` column (an empty intermediate bin sums
to `0`); on an empty frame it produces an empty frame.  The label timestamp of
bin `i` is `labelOf f i`, which is strictly monotone in `i`, so the frame is
represented by `(bucket index, summed amount)` pairs. -/
def resampleSum (f : Freq) (rs : List Record) : List (Int × Int) :=
  match listMin (rs.map (fun r => bucketIdx f r.timestamp)),
        listMax (rs.map (fun r => bucketIdx f r.timestamp)) with
  | some lo, some hi =>
      (intRange lo hi).map (fun i =>
        (i, ((rs.filter (fun r => bucketIdx f r.timestamp == i)).map Record.amount).sum))
  | _, _ => []

/-- Lines 158–177 of `spending_tracker.py`, on an already-parsed frame:

* line 162: filter to the selected category;
* line 166: resample and sum (`resampleSum`);
* line 169: `pd.date_range(resampled['timestamp'].min(), …max(), freq)` — when
  the resampled frame is empty both extrema are `NaT` and `pd.date_range`
  raises `ValueError` ("Neither start nor end can be NaT"), modelled as
  `.error ()`.  Otherwise the range regenerates exactly the labels of buckets
  `lo…hi` (labels are strictly monotone in the bucket index, so min/max of the
  label column correspond to `lo`/`hi`);
* lines 173–175: left-merge on the label, `fillna(0)` on `amount` (modelled by
  `List.lookup` with default `0`), and overwrite of the `category` column. -/
def prepare_trend_data (records : List Record) (cat : String) (f : Freq) :
    Except Unit (List TrendPoint) :=
  let filtered := matchingRecords records cat
  let resampled := resampleSum f filtered
  match listMin (resampled.map Prod.fst), listMax (resampled.map Prod.fst) with
  | some lo, some hi =>
      .ok ((intRange lo hi).map (fun i =>
        { timestamp := labelOf f i
          amount := ((resampled.lookup i).getD 0)
          category := cat }))
  | _, _ => .error ()

/-! ## The raw (stored) DataFrame layer

Data arriving from `dcc.Store` is JSON: timestamps are ISO date strings.
Line 159, `spending_data['timestamp'] = pd.to_datetime(spending_data['timestamp'])`,
writes the parsed column back into the *caller's* frame (an in-place update);
it raises before assigning if any cell fails to parse. -/

/-- A timestamp cell of the stored frame: either still an ISO date string or an
already-parsed datetime. -/
inductive TsCell where
  | str : String → TsCell
  | dt : Date → TsCell
deriving DecidableEq

/-- One row of the DataFrame built from the `dcc.Store` payload. -/
structure RawRecord where
  amount : Int
  category : String
  timestamp : TsCell
deriving DecidableEq

/-- Longest leading run of decimal digits of a character list, and the rest. -/
def takeDigits : List Char → List Char × List Char
  | [] => ([], [])
  | c :: rest =>
      if c.isDigit then
        let p := takeDigits rest
        (c :: p.1, p.2)
      else
        ([], c :: rest)

/-- Numeric value of a digit string. -/
def digitsVal (cs : List Char) : Nat :=
  cs.foldl (fun a c => 10 * a + (c.toNat - 48)) 0

/-- Parser for `'%Y-%m-%d'` date strings, with the calendar validation that
`datetime.strptime`/`pd.to_datetime` perform (month 1–12, day within the
month); `none` models a raised `ValueError`. -/
def parseDate (s : String) : Option Date :=
  match takeDigits s.toList with
  | (y0 :: ys, '-' :: rest1) =>
      match takeDigits rest1 with
      | (m0 :: ms, '-' :: rest2) =>
          match takeDigits rest2 with
          | (d0 :: ds, []) =>
              let y : Int := (digitsVal (y0 :: ys) : Int)
              let m := digitsVal (m0 :: ms)
              let d := digitsVal (d0 :: ds)
              if 1 ≤ m ∧ m ≤ 12 ∧ 1 ≤ d ∧ d ≤ daysInMonth y m then
                some ⟨y, m, d⟩
              else none
          | _ => none
      | _ => none
  | _ => none

/-- One cell of `pd.to_datetime` over the timestamp column: a string cell is
parsed, a datetime cell is kept. -/
def normalizeCell (c : TsCell) : Option TsCell :=
  match c with
  | .dt d => some (.dt d)
  | .str s => (parseDate s).map .dt

/-- `pd.to_datetime` over the timestamp column: parses string cells, keeps
datetime cells; `none` when any cell fails (the whole statement raises and the
frame is left untouched). -/
def normalizeTimestamps : List RawRecord → Option (List RawRecord)
  | [] => some []
  | r :: rest =>
      match normalizeCell r.timestamp, normalizeTimestamps rest with
      | some c, some rest2 => some ({ r with timestamp := c } :: rest2)
      | _, _ => none

/-- View of a frame whose timestamp column is fully parsed as plain records. -/
def toRecords (df : List RawRecord) : List Record :=
  df.filterMap (fun r =>
    match r.timestamp with
    | .dt d => some ⟨r.amount, r.category, d⟩
    | .str _ => none)

/-- The whole of `prepare_trend_data` (lines 158–177) as a function of the
caller-visible frame: returns the frame as the caller sees it afterwards
(line 159 mutates it in place) together with the result (or the raised
exception). -/
def prepare_trend_data_df (df : List RawRecord) (cat : String) (f : Freq) :
    List RawRecord × Except Unit (List TrendPoint) :=
  match normalizeTimestamps df with
  | none => (df, .error ())
  | some df' => (df', prepare_trend_data (toRecords df') cat f)

/-! ## Chart builder (`update_trend_graph`, lines 179–211) -/

/-- One `go.Scatter` line trace. -/
structure Trace where
  name : String
  x : List Int
  y : List Int
deriving DecidableEq

/-- A `go.Figure`: traces plus the layout fields `update_layout` sets. -/
structure Figure where
  traces : List Trace
  title : Option String
  xaxisTitle : Option String
  yaxisTitle : Option String
deriving DecidableEq

/-- `go.Figure()`: no traces, no layout titles. -/
def emptyFigure : Figure := ⟨[], none, none, none⟩

/-- The loop of lines 203–205: one call of `prepare_trend_data` per selected
category, threading the (mutated-in-place) frame; a raised exception aborts the
callback. -/
def buildTraces (df : List RawRecord) (cats : List String) (f : Freq) :
    Except Unit (List Trace × List RawRecord) :=
  match cats with
  | [] => .ok ([], df)
  | c :: rest =>
      match prepare_trend_data_df df c f with
      | (_, .error e) => .error e
      | (df', .ok pts) =>
          match buildTraces df' rest f with
          | .error e => .error e
          | .ok (ts, df'') =>
              .ok (⟨c, pts.map TrendPoint.timestamp, pts.map TrendPoint.amount⟩ :: ts, df'')

/-- Lines 179–211.  `stored_data is None or not selected_categories` returns a
bare `go.Figure()`; otherwise one trace per category is added and the layout
titles are chosen from the frequency (`'M'` versus anything else). -/
def update_trend_graph (selected_categories : List String)
    (stored_data : Option (List RawRecord)) (f : Freq) : Except Unit Figure :=
  match stored_data with
  | none => .ok emptyFigure
  | some data =>
      if selected_categories = [] then .ok emptyFigure
      else
        match buildTraces data selected_categories f with
        | .error e => .error e
        | .ok (ts, _) =>
            .ok { traces := ts
                  title := some (if f = .M then "Monthly Trends" else "Weekly Trends")
                  xaxisTitle := some (if f = .M then "Month" else "Week")
                  yaxisTitle := some "Amount" }

/-! ## Submit callback (`update_output`, lines 302–343) -/

/-- Banner colours of `dbc.Alert`. -/
inductive BannerColor where
  | success : BannerColor
  | warning : BannerColor
  | danger : BannerColor
deriving DecidableEq

/-- The value a callback returns into its output container. -/
inductive Banner where
  | noUpdate : Banner
  | alert : String → BannerColor → Banner
deriving DecidableEq

/-- One row of the `spending` table: amount, category, parsed date plus the
time-of-day (seconds) taken from `datetime.now()` at submit time. -/
structure SpendRow where
  amount : Int
  category : String
  date : Date
  timeOfDay : Nat
deriving DecidableEq

/-- Lines 302–343.  `nowTime` stands for the clock reading
`datetime.now().strftime('%H:%M:%S')` (always well formed, so only the date
part of `f"{spending_date} {current_time}"` can make `strptime` raise);
`store` is the `spending` table.  Order of events, as in the source:
the `n_clicks is None` guard, then the `strptime` parse (which *raises* when
`spending_date` is `None` or malformed, modelled as `.error ()`), then the
`n_clicks > 0` branch with the missing-input check (a `danger` alert) or the
insert (the `sqlite3.Error` branch is not modelled: the insert is assumed to
succeed). -/
def update_output (n_clicks : Option Nat) (amount : Option Int)
    (category : Option String) (spending_date : Option String) (nowTime : Nat)
    (store : List SpendRow) : Except Unit (Banner × List SpendRow) :=
  match n_clicks with
  | none => .ok (.noUpdate, store)
  | some n =>
      match spending_date with
      | none => .error ()
      | some s =>
          match parseDate s with
          | none => .error ()
          | some d =>
              if n > 0 then
                match amount, category with
                | some a, some c =>
                    .ok (.alert ("Amount: " ++ toString a ++ ", Category: " ++ c
                          ++ " added successfully!") .success,
                         store ++ [⟨a, c, d, nowTime⟩])
                | _, _ =>
                    .ok (.alert "Please enter a valid amount and select a category" .danger,
                         store)
              else
                .ok (.alert "Enter amount and select a category" .warning, store)

/-! ## Category callback (`update_category_dropdown`, lines 263–292, and
`add_category_to_db` from `database.py`) -/

/-- `INSERT INTO categories (category_name) VALUES (?)`: appends a row (no
uniqueness constraint). -/
def add_category_to_db (cats : List String) (category_name : String) : List String :=
  cats ++ [category_name]

/-- The five outputs of `update_category_dropdown`; `none` in an options slot
models `dash.no_update`, `alert = none` models the `None` alert child. -/
structure CatUpdate where
  categoryOptions : Option (List String)
  monthlyOptions : Option (List String)
  weeklyOptions : Option (List String)
  inputValue : String
  alert : Option (String × BannerColor)
deriving DecidableEq

/-- Python's `str.isalnum()` restricted to ASCII: non-empty and every character
alphanumeric. -/
def pyIsAlnum (s : String) : Bool :=
  (decide (s ≠ "")) && s.toList.all Char.isAlphanum

/-- Lines 263–292.  Dropdown options are modelled by their value lists
(`label == value` throughout); `cats` is the `categories` table, returned
updated.  `new_category` is falsy (`not new_category`) when `None` or empty. -/
def update_category_dropdown (n_clicks : Option Nat) (new_category : Option String)
    (cats : List String) : CatUpdate × List String :=
  match n_clicks, new_category with
  | none, _ => (⟨none, none, none, "", none⟩, cats)
  | some _, none => (⟨none, none, none, "", none⟩, cats)
  | some _, some s =>
      if s = "" then (⟨none, none, none, "", none⟩, cats)
      else if pyIsAlnum s then
        let cats' := add_category_to_db cats s
        (⟨some (cats' ++ ["ADD_NEW"]), some cats', some cats', "",
          some ("Category \"" ++ s ++ "\" added successfully!", .success)⟩, cats')
      else
        (⟨none, none, none, "", some ("Invalid category name.", .warning)⟩, cats)

/-! ## Lemmas: integer ranges -/

theorem mem_intRangeAux {x : Int} : ∀ (n : Nat) (lo : Int),
    x ∈ intRangeAux n lo ↔ lo ≤ x ∧ x < lo + n
  | 0, lo => by
    simp only [intRangeAux, List.not_mem_nil, false_iff]
    omega
  | n + 1, lo => by
    simp only [intRangeAux, List.mem_cons, mem_intRangeAux n (lo + 1)]
    omega

theorem mem_intRange {x lo hi : Int} : x ∈ intRange lo hi ↔ lo ≤ x ∧ x ≤ hi := by
  rw [intRange, mem_intRangeAux]
  omega

theorem pairwise_lt_intRangeAux : ∀ (n : Nat) (lo : Int),
    List.Pairwise (· < ·) (intRangeAux n lo)
  | 0, _ => List.Pairwise.nil
  | n + 1, lo => by
    refine List.pairwise_cons.2 ⟨fun y hy => ?_, pairwise_lt_intRangeAux n (lo + 1)⟩
    have := (mem_intRangeAux n (lo + 1)).1 hy
    omega

theorem pairwise_lt_intRange (lo hi : Int) : List.Pairwise (· < ·) (intRange lo hi) :=
  pairwise_lt_intRangeAux _ _

theorem nodup_intRange (lo hi : Int) : (intRange lo hi).Nodup :=
  (pairwise_lt_intRange lo hi).imp ne_of_lt

/-! ## Lemmas: list minimum and maximum -/

theorem foldl_min_spec : ∀ (xs : List Int) (x : Int),
    (xs.foldl min x ≤ x ∧ ∀ y ∈ xs, xs.foldl min x ≤ y) ∧
      (xs.foldl min x = x ∨ xs.foldl min x ∈ xs)
  | [], x => by simp
  | z :: zs, x => by
    obtain ⟨⟨h1, h2⟩, h3⟩ := foldl_min_spec zs (min x z)
    refine ⟨⟨le_trans h1 (min_le_left _ _), ?_⟩, ?_⟩
    · intro y hy
      rcases List.mem_cons.1 hy with rfl | hy
      · exact le_trans h1 (min_le_right _ _)
      · exact h2 y hy
    · rcases h3 with h3 | h3
      · rcases le_total x z with hxz | hxz
        · left; rw [List.foldl_cons, h3, min_eq_left hxz]
        · right; rw [List.foldl_cons, h3, min_eq_right hxz]; exact List.mem_cons_self _ _
      · right; exact List.mem_cons_of_mem _ h3

theorem foldl_max_spec : ∀ (xs : List Int) (x : Int),
    (x ≤ xs.foldl max x ∧ ∀ y ∈ xs, y ≤ xs.foldl max x) ∧
      (xs.foldl max x = x ∨ xs.foldl max x ∈ xs)
  | [], x => by simp
  | z :: zs, x => by
    obtain ⟨⟨h1, h2⟩, h3⟩ := foldl_max_spec zs (max x z)
    refine ⟨⟨le_trans (le_max_left _ _) h1, ?_⟩, ?_⟩
    · intro y hy
      rcases List.mem_cons.1 hy with rfl | hy
      · exact le_trans (le_max_right _ _) h1
      · exact h2 y hy
    · rcases h3 with h3 | h3
      · rcases le_total x z with hxz | hxz
        · right; rw [List.foldl_cons, h3, max_eq_right hxz]; exact List.mem_cons_self _ _
        · left; rw [List.foldl_cons, h3, max_eq_left hxz]
      · right; exact List.mem_cons_of_mem _ h3

theorem listMin_spec {l : List Int} {v : Int} (h : listMin l = some v) :
    v ∈ l ∧ ∀ y ∈ l, v ≤ y := by
  match l with
  | [] => simp [listMin] at h
  | x :: xs =>
    obtain ⟨⟨h1, h2⟩, h3⟩ := foldl_min_spec xs x
    have hv : v = xs.foldl min x := by simpa [listMin] using h.symm
    subst hv
    constructor
    · rcases h3 with h3 | h3
      · rw [h3]; exact List.mem_cons_self _ _
      · exact List.mem_cons_of_mem _ h3
    · intro y hy
      rcases List.mem_cons.1 hy with rfl | hy
      · exact h1
      · exact h2 y hy

theorem listMax_spec {l : List Int} {v : Int} (h : listMax l = some v) :
    v ∈ l ∧ ∀ y ∈ l, y ≤ v := by
  match l with
  | [] => simp [listMax] at h
  | x :: xs =>
    obtain ⟨⟨h1, h2⟩, h3⟩ := foldl_max_spec xs x
    have hv : v = xs.foldl max x := by simpa [listMax] using h.symm
    subst hv
    constructor
    · rcases h3 with h3 | h3
      · rw [h3]; exact List.mem_cons_self _ _
      · exact List.mem_cons_of_mem _ h3
    · intro y hy
      rcases List.mem_cons.1 hy with rfl | hy
      · exact h1
      · exact h2 y hy

theorem listMin_eq_some {l : List Int} {v : Int} (hmem : v ∈ l)
    (hlb : ∀ y ∈ l, v ≤ y) : listMin l = some v := by
  match l with
  | [] => cases hmem
  | x :: xs =>
    obtain ⟨w, hw⟩ : ∃ w, listMin (x :: xs) = some w := ⟨_, rfl⟩
    obtain ⟨hwmem, hwlb⟩ := listMin_spec hw
    have : w = v := le_antisymm (hwlb v hmem) (hlb w hwmem)
    rw [hw, this]

theorem listMax_eq_some {l : List Int} {v : Int} (hmem : v ∈ l)
    (hub : ∀ y ∈ l, y ≤ v) : listMax l = some v := by
  match l with
  | [] => cases hmem
  | x :: xs =>
    obtain ⟨w, hw⟩ : ∃ w, listMax (x :: xs) = some w := ⟨_, rfl⟩
    obtain ⟨hwmem, hwub⟩ := listMax_spec hw
    have : w = v := le_antisymm (hub w hwmem) (hwub v hmem)
    rw [hw, this]

theorem listMin_intRange {lo hi : Int} (h : lo ≤ hi) :
    listMin (intRange lo hi) = some lo :=
  listMin_eq_some (mem_intRange.2 ⟨le_refl lo, h⟩) (fun _ hy => (mem_intRange.1 hy).1)

theorem listMax_intRange {lo hi : Int} (h : lo ≤ hi) :
    listMax (intRange lo hi) = some hi :=
  listMax_eq_some (mem_intRange.2 ⟨h, le_refl hi⟩) (fun _ hy => (mem_intRange.1 hy).2)

theorem listMin_isSome {l : List Int} (h : l ≠ []) : ∃ v, listMin l = some v := by
  match l with
  | [] => exact absurd rfl h
  | x :: xs => exact ⟨_, rfl⟩

theorem listMax_isSome {l : List Int} (h : l ≠ []) : ∃ v, listMax l = some v := by
  match l with
  | [] => exact absurd rfl h
  | x :: xs => exact ⟨_, rfl⟩

/-! ## Lemmas: lookup in a keyed map and partitioned sums -/

theorem lookup_map_self {g : Int → Int} : ∀ {l : List Int} {a : Int}, a ∈ l →
    List.lookup a (l.map (fun i => (i, g i))) = some (g a)
  | x :: xs, a, ha => by
    by_cases hax : a = x
    · subst hax; simp [List.lookup]
    · have ha' : a ∈ xs := by
        rcases List.mem_cons.1 ha with rfl | h
        · exact absurd rfl hax
        · exact h
      have hfalse : (a == x) = false := by
        simp only [beq_eq_false_iff_ne, ne_eq]
        exact hax
      simp [List.lookup, hfalse, lookup_map_self ha']

theorem sum_map_add_split (l : List Int) (f g : Int → Int) :
    (l.map (fun i => f i + g i)).sum = (l.map f).sum + (l.map g).sum := by
  induction l with
  | nil => simp
  | cons x xs ih => simp [ih]; ring

theorem sum_ite_not_mem {v : Int} {b : Int} : ∀ {l : List Int}, b ∉ l →
    (l.map (fun i => if b = i then v else 0)).sum = 0
  | [], _ => rfl
  | x :: xs, hb => by
    have hbx : ¬(b = x) := fun h => hb (h ▸ List.mem_cons_self _ _)
    have hxs : b ∉ xs := fun h => hb (List.mem_cons_of_mem _ h)
    simp only [List.map_cons, List.sum_cons, if_neg hbx, sum_ite_not_mem hxs, zero_add]

theorem sum_ite_mem {v : Int} {b : Int} : ∀ {l : List Int}, l.Nodup → b ∈ l →
    (l.map (fun i => if b = i then v else 0)).sum = v
  | x :: xs, hnd, hb => by
    by_cases hbx : b = x
    · subst hbx
      have hx : b ∉ xs := (List.nodup_cons.1 hnd).1
      rw [List.map_cons, List.sum_cons, if_pos rfl, sum_ite_not_mem hx, add_zero]
    · have hb' : b ∈ xs := by
        rcases List.mem_cons.1 hb with rfl | h
        · exact absurd rfl hbx
        · exact h
      simp only [List.map_cons, List.sum_cons, if_neg hbx,
        sum_ite_mem (List.nodup_cons.1 hnd).2 hb', zero_add]

/-- Summing per-bucket sums over a duplicate-free list of buckets that covers
every element recovers the total sum. -/
theorem sum_partition (g : Record → Int) (h : Record → Int) :
    ∀ (rs : List Record) (l : List Int), l.Nodup → (∀ r ∈ rs, g r ∈ l) →
      (l.map (fun i => ((rs.filter (fun r => g r == i)).map h).sum)).sum
        = (rs.map h).sum
  | [], l, _, _ => by simp
  | r :: rs, l, hnd, hcov => by
    have hcov' : ∀ s ∈ rs, g s ∈ l := fun s hs => hcov s (List.mem_cons_of_mem _ hs)
    have step : ∀ i : Int,
        (((r :: rs).filter (fun s => g s == i)).map h).sum
          = (if g r = i then h r else 0) + ((rs.filter (fun s => g s == i)).map h).sum := by
      intro i
      by_cases hi : g r = i
      · rw [List.filter_cons_of_pos (by simpa using hi), if_pos hi]
        simp
      · rw [List.filter_cons_of_neg (by simpa using hi), if_neg hi]
        simp
    calc (l.map (fun i => (((r :: rs).filter (fun s => g s == i)).map h).sum)).sum
        = (l.map (fun i =>
            (if g r = i then h r else 0) + ((rs.filter (fun s => g s == i)).map h).sum)).sum := by
          exact congrArg List.sum (List.map_congr_left (fun i _ => step i))
      _ = (l.map (fun i => if g r = i then h r else 0)).sum
            + (l.map (fun i => ((rs.filter (fun s => g s == i)).map h).sum)).sum :=
          sum_map_add_split l _ _
      _ = h r + (rs.map h).sum := by
          rw [sum_ite_mem hnd (hcov r (List.mem_cons_self _ _)),
            sum_partition g h rs l hnd hcov']
      _ = ((r :: rs).map h).sum := by simp

/-! ## Lemmas: calendar arithmetic -/

theorem daysInMonth_pos (y : Int) (m : Nat) : 1 ≤ daysInMonth y m := by
  unfold daysInMonth
  split
  all_goals first
    | omega
    | (split <;> omega)

theorem daysBeforeYear_succ (y : Int) :
    daysBeforeYear (y + 1) = daysBeforeYear y + 365 + (if isLeap y then 1 else 0) := by
  by_cases h : isLeap y
  · rw [if_pos h]
    unfold isLeap at h
    unfold daysBeforeYear
    omega
  · rw [if_neg h]
    unfold isLeap at h
    push_neg at h
    unfold daysBeforeYear
    omega

/-- Shifting the day within a month shifts the day number accordingly. -/
theorem dayNumber_day (y : Int) (m : Nat) (d : Nat) :
    dayNumber ⟨y, m, d⟩ = dayNumber ⟨y, m, 1⟩ + (d : Int) - 1 := by
  unfold dayNumber
  push_cast
  ring

/-- The first of month `m+1` is the day after the last of month `m`. -/
theorem month_boundary (y : Int) (m : Nat) (h1 : 1 ≤ m) (h2 : m ≤ 11) :
    dayNumber ⟨y, m + 1, 1⟩ = dayNumber ⟨y, m, daysInMonth y m⟩ + 1 := by
  unfold dayNumber daysBeforeMonth
  interval_cases m <;> by_cases h : isLeap y <;>
    simp [monthOffset, daysInMonth, h] <;> omega

/-- January 1st of year `y+1` is the day after December 31st of year `y`. -/
theorem year_boundary (y : Int) :
    dayNumber ⟨y + 1, 1, 1⟩ = dayNumber ⟨y, 12, 31⟩ + 1 := by
  unfold dayNumber daysBeforeMonth
  rw [daysBeforeYear_succ]
  by_cases h : isLeap y <;> simp [monthOffset, h] <;> omega

/-- Month-end day numbers grow strictly with the month index. -/
theorem monthEndDay_lt_succ (i : Int) : monthEndDay i < monthEndDay (i + 1) := by
  have h0 : 0 ≤ i % 12 := Int.emod_nonneg i (by norm_num)
  have h1 : i % 12 < 12 := Int.emod_lt_of_pos i (by norm_num)
  by_cases hr : i % 12 ≤ 10
  · have hq : (i + 1) / 12 = i / 12 := by omega
    have hm : ((i + 1) % 12).toNat = (i % 12).toNat + 1 := by omega
    have hle : (i % 12).toNat + 1 ≤ 11 := by omega
    have hge : 1 ≤ (i % 12).toNat + 1 := by omega
    unfold monthEndDay
    rw [hq, hm]
    have hbd := month_boundary (i / 12) ((i % 12).toNat + 1) hge hle
    have hpos := daysInMonth_pos (i / 12) ((i % 12).toNat + 1 + 1)
    have hshift := dayNumber_day (i / 12) ((i % 12).toNat + 1 + 1)
      (daysInMonth (i / 12) ((i % 12).toNat + 1 + 1))
    omega
  · have hr11 : i % 12 = 11 := by omega
    have hq : (i + 1) / 12 = i / 12 + 1 := by omega
    have hm : ((i + 1) % 12).toNat = 0 := by omega
    have hm11 : (i % 12).toNat = 11 := by omega
    unfold monthEndDay
    rw [hq, hm, hm11]
    have h12 : daysInMonth (i / 12) 12 = 31 := rfl
    have h1' : daysInMonth (i / 12 + 1) 1 = 31 := rfl
    rw [h12, h1']
    have hbd := year_boundary (i / 12)
    have hshift := dayNumber_day (i / 12 + 1) 1 31
    norm_num
    omega

theorem labelOf_lt_succ (f : Freq) (i : Int) : labelOf f i < labelOf f (i + 1) := by
  cases f
  · simp only [labelOf]; omega
  · exact monthEndDay_lt_succ i

theorem labelOf_strictMono (f : Freq) {i j : Int} (h : i < j) :
    labelOf f i < labelOf f j := by
  have key : ∀ n : Nat, labelOf f i < labelOf f (i + 1 + n) := by
    intro n
    induction n with
    | zero => simpa using labelOf_lt_succ f i
    | succ k ih =>
        have step := labelOf_lt_succ f (i + 1 + k)
        have : i + 1 + (k + 1 : Nat) = (i + 1 + k) + 1 := by push_cast; ring
        rw [this]
        exact lt_trans ih step
  have hj : j = i + 1 + ((j - i - 1).toNat : Int) := by omega
  rw [hj]
  exact key _

/-- Recovering a valid date's year and month from its monthly bucket index. -/
theorem bucket_M_roundtrip (d : Date) (h1 : 1 ≤ d.month) (h2 : d.month ≤ 12) :
    bucketIdx .M d / 12 = d.year ∧ (bucketIdx .M d % 12).toNat + 1 = d.month := by
  simp only [bucketIdx]
  omega

/-- A valid date's day number lies between the first and last day (numbers) of
its month. -/
theorem dayNumber_month_bounds (d : Date) (hv : d.Valid) :
    dayNumber ⟨d.year, d.month, 1⟩ ≤ dayNumber d ∧
      dayNumber d ≤ dayNumber ⟨d.year, d.month, daysInMonth d.year d.month⟩ := by
  obtain ⟨hm1, hm2, hd1, hd2⟩ := hv
  have e1 : dayNumber d = dayNumber ⟨d.year, d.month, 1⟩ + (d.day : Int) - 1 :=
    dayNumber_day d.year d.month d.day
  have e2 := dayNumber_day d.year d.month (daysInMonth d.year d.month)
  omega

/-- The weekly label of a day's bucket is the Sunday on or after it: at most
six days later, never earlier. -/
theorem week_label_bounds (n : Int) :
    n ≤ 3 + 7 * ((n + 3) / 7) ∧ 3 + 7 * ((n + 3) / 7) ≤ n + 6 := by
  omega

/-- Weekly bucket labels fall on Sundays. -/
theorem week_label_sunday (i : Int) : dayOfWeek (3 + 7 * i) = 0 := by
  unfold dayOfWeek
  omega

/-! ## The master characterization of `prepare_trend_data` -/

/-- When at least one record matches the category, `prepare_trend_data`
succeeds and returns exactly one point per bucket of the contiguous range from
the least to the greatest occupied bucket, labelled by `labelOf` and carrying
the per-bucket sum of amounts. -/
theorem prepare_eq (records : List Record) (cat : String) (f : Freq)
    (h : matchingRecords records cat ≠ []) :
    ∃ lo hi, lo ≤ hi ∧
      listMin ((matchingRecords records cat).map (fun r => bucketIdx f r.timestamp))
        = some lo ∧
      listMax ((matchingRecords records cat).map (fun r => bucketIdx f r.timestamp))
        = some hi ∧
      prepare_trend_data records cat f = .ok ((intRange lo hi).map (fun i =>
        { timestamp := labelOf f i
          amount := (((matchingRecords records cat).filter
              (fun r => bucketIdx f r.timestamp == i)).map Record.amount).sum
          category := cat })) := by
  have hbne : (matchingRecords records cat).map (fun r => bucketIdx f r.timestamp) ≠ [] := by
    intro he
    exact h (by simpa using he)
  obtain ⟨lo, hlo⟩ := listMin_isSome hbne
  obtain ⟨hi, hhi⟩ := listMax_isSome hbne
  obtain ⟨hlomem, hlolb⟩ := listMin_spec hlo
  obtain ⟨himem, hiub⟩ := listMax_spec hhi
  have hlohi : lo ≤ hi := hlolb hi himem
  have hres : resampleSum f (matchingRecords records cat) = (intRange lo hi).map (fun i =>
      (i, (((matchingRecords records cat).filter
          (fun r => bucketIdx f r.timestamp == i)).map Record.amount).sum)) := by
    unfold resampleSum
    rw [hlo, hhi]
  refine ⟨lo, hi, hlohi, hlo, hhi, ?_⟩
  simp only [prepare_trend_data]
  rw [hres]
  have hfst : ((intRange lo hi).map (fun i =>
      (i, (((matchingRecords records cat).filter
          (fun r => bucketIdx f r.timestamp == i)).map Record.amount).sum))).map Prod.fst
        = intRange lo hi := by
    rw [List.map_map]
    exact List.map_id _
  rw [hfst, listMin_intRange hlohi, listMax_intRange hlohi]
  exact congrArg Except.ok (List.map_congr_left (fun i hmem => by
    rw [lookup_map_self hmem]
    rfl))

theorem mem_matchingRecords {records : List Record} {cat : String} {r : Record} :
    r ∈ matchingRecords records cat ↔ r ∈ records ∧ r.category = cat := by
  unfold matchingRecords
  rw [List.mem_filter]
  simp

theorem chain_lt_label_intRange (f : Freq) (lo hi : Int) :
    List.Chain' (· < ·) ((intRange lo hi).map (labelOf f)) := by
  apply List.Pairwise.chain'
  rw [List.pairwise_map]
  exact (pairwise_lt_intRange lo hi).imp (fun hab => labelOf_strictMono f hab)

/-! ## Claim C1 -/

/-- C1 (refuted; the code, not the claim, is at fault): the spec requires the
zero-matching-records case to yield an empty series without failing, but
`prepare_trend_data` reaches `pd.date_range(start=NaT, end=NaT, freq=freq)`,
which raises `ValueError`.  Concretely: one `food` record, category `travel`
requested, monthly frequency — the embedded function returns the modelled
exception rather than an empty series. -/
theorem C1_zero_match_raises :
    prepare_trend_data [⟨10, "food", ⟨2024, 1, 1⟩⟩] "travel" .M = .error () ∧
      prepare_trend_data [⟨10, "food", ⟨2024, 1, 1⟩⟩] "travel" .W = .error () :=
  ⟨rfl, rfl⟩

/-! ## Claim C2 -/

/-- C2: for every record set containing at least one record of the requested
category, `prepare_trend_data` succeeds; its output timestamps are the labels
of the contiguous bucket range `[lo, hi]` at the requested frequency, where
`lo`/`hi` are the least/greatest buckets occupied by matching records (both
attained); the output is strictly sorted ascending by timestamp; and every
bucket in the range whose filter of matching records is empty contributes a
point with amount `0`. -/
theorem C2_contiguous_sorted (records : List Record) (cat : String) (f : Freq)
    (hne : matchingRecords records cat ≠ []) :
    ∃ pts lo hi,
      prepare_trend_data records cat f = .ok pts ∧
      lo ≤ hi ∧
      (∃ r ∈ matchingRecords records cat, bucketIdx f r.timestamp = lo) ∧
      (∃ r ∈ matchingRecords records cat, bucketIdx f r.timestamp = hi) ∧
      (∀ r ∈ matchingRecords records cat,
        lo ≤ bucketIdx f r.timestamp ∧ bucketIdx f r.timestamp ≤ hi) ∧
      pts.map TrendPoint.timestamp = (intRange lo hi).map (labelOf f) ∧
      List.Chain' (· < ·) (pts.map TrendPoint.timestamp) ∧
      (∀ i : Int, lo ≤ i → i ≤ hi → ∃ p ∈ pts, p.timestamp = labelOf f i ∧
        ((matchingRecords records cat).filter (fun r => bucketIdx f r.timestamp == i) = [] →
          p.amount = 0)) := by
  obtain ⟨lo, hi, hlohi, hlo, hhi, hok⟩ := prepare_eq records cat f hne
  obtain ⟨hlomem, hlolb⟩ := listMin_spec hlo
  obtain ⟨himem, hiub⟩ := listMax_spec hhi
  refine ⟨_, lo, hi, hok, hlohi, ?_, ?_, ?_, ?_, ?_, ?_⟩
  · obtain ⟨r, hr, he⟩ := List.mem_map.1 hlomem
    exact ⟨r, hr, he⟩
  · obtain ⟨r, hr, he⟩ := List.mem_map.1 himem
    exact ⟨r, hr, he⟩
  · intro r hr
    exact ⟨hlolb _ (List.mem_map_of_mem _ hr), hiub _ (List.mem_map_of_mem _ hr)⟩
  · rw [List.map_map]
    rfl
  · have he : (((intRange lo hi).map (fun i =>
        ({ timestamp := labelOf f i
           amount := (((matchingRecords records cat).filter
               (fun r => bucketIdx f r.timestamp == i)).map Record.amount).sum
           category := cat } : TrendPoint))).map TrendPoint.timestamp)
          = (intRange lo hi).map (labelOf f) := by
      rw [List.map_map]
      rfl
    rw [he]
    exact chain_lt_label_intRange f lo hi
  · intro i hilo hihi
    refine ⟨_, List.mem_map_of_mem _ (mem_intRange.2 ⟨hilo, hihi⟩), rfl, ?_⟩
    intro hfil
    simp only [hfil, List.map_nil, List.sum_nil]

/-! ## Claim C3 -/

/-- C3: for every record set and category with at least one matching record,
the sum of the output amounts equals the sum of the amounts of the records
whose category is exactly the requested one, for either frequency (totals are
conserved by the resampling). -/
theorem C3_sum_conserved (records : List Record) (cat : String) (f : Freq)
    (hne : matchingRecords records cat ≠ []) :
    ∃ pts, prepare_trend_data records cat f = .ok pts ∧
      (pts.map TrendPoint.amount).sum
        = ((matchingRecords records cat).map Record.amount).sum := by
  obtain ⟨lo, hi, hlohi, hlo, hhi, hok⟩ := prepare_eq records cat f hne
  obtain ⟨hlomem, hlolb⟩ := listMin_spec hlo
  obtain ⟨himem, hiub⟩ := listMax_spec hhi
  refine ⟨_, hok, ?_⟩
  have he : (((intRange lo hi).map (fun i =>
      ({ timestamp := labelOf f i
         amount := (((matchingRecords records cat).filter
             (fun r => bucketIdx f r.timestamp == i)).map Record.amount).sum
         category := cat } : TrendPoint))).map TrendPoint.amount)
        = (intRange lo hi).map (fun i => (((matchingRecords records cat).filter
            (fun r => bucketIdx f r.timestamp == i)).map Record.amount).sum) := by
    rw [List.map_map]
    rfl
  rw [he]
  apply sum_partition (fun r => bucketIdx f r.timestamp) Record.amount
  · exact nodup_intRange lo hi
  · intro r hr
    exact mem_intRange.2 ⟨hlolb _ (List.mem_map_of_mem _ hr),
      hiub _ (List.mem_map_of_mem _ hr)⟩

/-! ## Claim C4 -/

/-- C4 (refutation): the claim says each output point is labelled by the
*start* of its period (the 1st of the month for monthly frequency).  In fact a
single January 2024 record yields the label 2024-01-31 (the month *end*), which
differs from 2024-01-01. -/
theorem C4_counterexample :
    (prepare_trend_data [⟨10, "food", ⟨2024, 1, 1⟩⟩] "food" .M).map
        (fun pts => pts.map TrendPoint.timestamp)
      = .ok [dayNumber ⟨2024, 1, 31⟩] ∧
    dayNumber ⟨2024, 1, 31⟩ ≠ dayNumber ⟨2024, 1, 1⟩ := by
  refine ⟨rfl, ?_⟩
  decide

/-- C4 (amended): every retained record with a valid date is assigned to the
period (calendar month, or Monday-to-Sunday week) containing its timestamp, and
the corresponding output point is labelled by the *end* of that period — the
last day of the month for monthly frequency, and for weekly frequency the
Sunday (a fixed, consistent weekday) that closes the seven-day period. -/
theorem C4_amended (records : List Record) (cat : String) (f : Freq)
    (r : Record) (hr : r ∈ records) (hcat : r.category = cat)
    (hv : r.timestamp.Valid) :
    ∃ pts, prepare_trend_data records cat f = .ok pts ∧
      ∃ p ∈ pts,
        p.timestamp = labelOf f (bucketIdx f r.timestamp) ∧
        periodStart f (bucketIdx f r.timestamp) ≤ dayNumber r.timestamp ∧
        dayNumber r.timestamp ≤ p.timestamp ∧
        (f = .M → p.timestamp
          = dayNumber ⟨r.timestamp.year, r.timestamp.month,
              daysInMonth r.timestamp.year r.timestamp.month⟩) ∧
        (f = .W → dayOfWeek p.timestamp = 0 ∧
          p.timestamp = periodStart f (bucketIdx f r.timestamp) + 6) := by
  have hrm : r ∈ matchingRecords records cat := mem_matchingRecords.2 ⟨hr, hcat⟩
  have hne : matchingRecords records cat ≠ [] := by
    intro he
    rw [he] at hrm
    cases hrm
  obtain ⟨lo, hi, hlohi, hlo, hhi, hok⟩ := prepare_eq records cat f hne
  obtain ⟨hlomem, hlolb⟩ := listMin_spec hlo
  obtain ⟨himem, hiub⟩ := listMax_spec hhi
  have hb : bucketIdx f r.timestamp ∈ intRange lo hi :=
    mem_intRange.2 ⟨hlolb _ (List.mem_map_of_mem _ hrm),
      hiub _ (List.mem_map_of_mem _ hrm)⟩
  refine ⟨_, hok, _, List.mem_map_of_mem _ hb, rfl, ?_⟩
  obtain ⟨hm1, hm2, hd1, hd2⟩ := hv
  cases f with
  | M =>
      obtain ⟨hy, hm⟩ := bucket_M_roundtrip r.timestamp hm1 hm2
      obtain ⟨hlow, hhigh⟩ := dayNumber_month_bounds r.timestamp ⟨hm1, hm2, hd1, hd2⟩
      have hlabel : labelOf .M (bucketIdx .M r.timestamp)
          = dayNumber ⟨r.timestamp.year, r.timestamp.month,
              daysInMonth r.timestamp.year r.timestamp.month⟩ := by
        show monthEndDay (bucketIdx .M r.timestamp) = _
        unfold monthEndDay
        rw [hy, hm]
      have hstart : periodStart .M (bucketIdx .M r.timestamp)
          = dayNumber ⟨r.timestamp.year, r.timestamp.month, 1⟩ := by
        show dayNumber _ = _
        rw [hy, hm]
      refine ⟨?_, ?_, fun _ => hlabel, fun hWM => by cases hWM⟩
      · rw [hstart]
        exact hlow
      · rw [hlabel]
        exact hhigh
  | W =>
      obtain ⟨hlow, hhigh⟩ := week_label_bounds (dayNumber r.timestamp)
      have hlabel : labelOf .W (bucketIdx .W r.timestamp)
          = 3 + 7 * ((dayNumber r.timestamp + 3) / 7) := rfl
      have hstart : periodStart .W (bucketIdx .W r.timestamp)
          = labelOf .W (bucketIdx .W r.timestamp) - 6 := rfl
      refine ⟨?_, ?_, ?_, ?_⟩
      · show periodStart .W (bucketIdx .W r.timestamp) ≤ _
        rw [hstart, hlabel]
        omega
      · show dayNumber r.timestamp ≤ _
        rw [hlabel]
        exact hlow
      · intro hMW
        exact absurd hMW (by decide)
      · intro hWW
        refine ⟨?_, ?_⟩
        · show dayOfWeek (labelOf .W (bucketIdx .W r.timestamp)) = 0
          rw [hlabel]
          exact week_label_sunday _
        · show labelOf .W (bucketIdx .W r.timestamp) = _
          rw [hstart]
          ring

/-! ## Claim C5 -/

theorem normalizeTimestamps_of_dt : ∀ (df : List RawRecord),
    (∀ r ∈ df, ∃ d, r.timestamp = .dt d) → normalizeTimestamps df = some df
  | [], _ => rfl
  | r :: rest, h => by
    obtain ⟨d, hd⟩ := h r (List.mem_cons_self _ _)
    have ih := normalizeTimestamps_of_dt rest (fun s hs => h s (List.mem_cons_of_mem _ hs))
    obtain ⟨a, c, ts⟩ := r
    have hd' : ts = TsCell.dt d := hd
    subst hd'
    unfold normalizeTimestamps
    rw [ih]
    rfl

/-- C5 (refutation): `prepare_trend_data` does *not* leave its input record
collection unchanged — line 159 writes the parsed timestamp column back into
the caller's frame.  With one record whose timestamp is still the string
`"2024-01-05"`, the frame visible to the caller afterwards differs from the
input. -/
theorem C5_counterexample :
    (prepare_trend_data_df [⟨10, "food", .str "2024-01-05"⟩] "food" .M).1
      ≠ [⟨10, "food", .str "2024-01-05"⟩] := by
  decide

/-- C5 (amended): the routine is deterministic — it is a pure function of the
frame contents (two calls on identical inputs agree, and the result is exactly
the pure resampling of the parsed records) — and when the timestamp column is
already datetime-valued the input frame is left unchanged; the only in-place
effect is the string-to-datetime normalization of the timestamp column. -/
theorem C5_amended (df : List RawRecord) (cat : String) (f : Freq)
    (h : ∀ r ∈ df, ∃ d, r.timestamp = .dt d) :
    (prepare_trend_data_df df cat f).1 = df ∧
    (prepare_trend_data_df df cat f).2 = prepare_trend_data (toRecords df) cat f ∧
    prepare_trend_data_df df cat f = prepare_trend_data_df df cat f := by
  have hn := normalizeTimestamps_of_dt df h
  unfold prepare_trend_data_df
  rw [hn]
  exact ⟨rfl, rfl, rfl⟩

theorem C5_witness :
    (prepare_trend_data_df [⟨10, "food", .dt ⟨2024, 1, 5⟩⟩] "food" .M).1
        = [⟨10, "food", .dt ⟨2024, 1, 5⟩⟩] ∧
    (prepare_trend_data_df [⟨10, "food", .dt ⟨2024, 1, 5⟩⟩] "food" .M).2
        = prepare_trend_data (toRecords [⟨10, "food", .dt ⟨2024, 1, 5⟩⟩]) "food" .M ∧
    prepare_trend_data_df [⟨10, "food", .dt ⟨2024, 1, 5⟩⟩] "food" .M
        = prepare_trend_data_df [⟨10, "food", .dt ⟨2024, 1, 5⟩⟩] "food" .M :=
  C5_amended [⟨10, "food", .dt ⟨2024, 1, 5⟩⟩] "food" .M (by
    intro r hr
    rw [List.mem_singleton] at hr
    subst hr
    exact ⟨⟨2024, 1, 5⟩, rfl⟩)

/-! ## Claim C6 -/

/-- C6 (refutation): on submit with a click, a valid date, a missing amount and
a selected category, the handler returns the missing-input banner with colour
`danger`, not `warning` as claimed. -/
theorem C6_counterexample :
    update_output (some 1) none (some "food") (some "2024-01-05") 0 []
      = .ok (.alert "Please enter a valid amount and select a category" .danger, []) ∧
    BannerColor.danger ≠ BannerColor.warning := by
  exact ⟨rfl, by decide⟩

/-- C6 (amended): for every submit with `n_clicks > 0` whose date string parses
(the picker's `'%Y-%m-%d'` format), if the amount or the category is missing
the handler returns a *danger* banner, appends nothing to the spending table,
and raises no exception.  (A missing or malformed date instead raises before
the check — see C10.) -/
theorem C6_amended (n : Nat) (amount : Option Int) (category : Option String)
    (s : String) (d : Date) (nowTime : Nat) (store : List SpendRow)
    (hn : 0 < n) (hd : parseDate s = some d)
    (hmiss : amount = none ∨ category = none) :
    update_output (some n) amount category (some s) nowTime store
      = .ok (.alert "Please enter a valid amount and select a category" .danger, store) := by
  simp only [update_output, hd]
  rw [if_pos hn]
  rcases hmiss with rfl | rfl
  · cases category <;> rfl
  · cases amount <;> rfl

theorem C6_witness :
    update_output (some 1) none (some "food") (some "2024-01-05") 3600 []
      = .ok (.alert "Please enter a valid amount and select a category" .danger, []) :=
  C6_amended 1 none (some "food") "2024-01-05" ⟨2024, 1, 5⟩ 3600 []
    (by decide) (by decide) (Or.inl rfl)

/-! ## Claim C7 -/

/-- C7 (refutation): adding a category with the *empty* name does leave the
Store unchanged, but no warning banner is surfaced — the `not new_category`
branch silently clears the input and returns no alert, contradicting the
claim that every invalid name yields a warning banner. -/
theorem C7_counterexample :
    (update_category_dropdown (some 1) (some "") ["food"]).1.alert = none ∧
    (update_category_dropdown (some 1) (some "") ["food"]).2 = ["food"] ∧
    (none : Option (String × BannerColor))
      ≠ some ("Invalid category name.", .warning) := by
  refine ⟨rfl, rfl, by decide⟩

/-- C7 (amended): an invalid category name never mutates the categories table,
and the warning banner is surfaced exactly when the name is non-empty (and not
alphanumeric); an empty name is rejected silently, with no banner. -/
theorem C7_amended (n : Nat) (s : String) (cats : List String)
    (hinv : s = "" ∨ s.toList.all Char.isAlphanum = false) :
    (update_category_dropdown (some n) (some s) cats).2 = cats ∧
    (update_category_dropdown (some n) (some s) cats).1.alert
      = if s = "" then none else some ("Invalid category name.", .warning) := by
  by_cases he : s = ""
  · simp [update_category_dropdown, he]
  · have hfalse : pyIsAlnum s = false := by
      unfold pyIsAlnum
      rcases hinv with h | h
      · exact absurd h he
      · rw [h, Bool.and_false]
    simp [update_category_dropdown, he, hfalse]

theorem C7_witness :
    (update_category_dropdown (some 1) (some "Rent#1") ["food"]).2 = ["food"] ∧
    (update_category_dropdown (some 1) (some "Rent#1") ["food"]).1.alert
      = if ("Rent#1" : String) = "" then none
        else some ("Invalid category name.", BannerColor.warning) :=
  C7_amended 1 "Rent#1" ["food"] (Or.inr (by decide))

/-! ## Claim C8 -/

/-- C8: when the stored record set is absent (`None`) or the selected-category
list is empty, the chart builder returns the bare `go.Figure()` — an empty
chart specification with zero series and no layout titles — without raising,
for any frequency. -/
theorem C8_empty_inputs (cats : List String) (stored : Option (List RawRecord))
    (f : Freq) (h : stored = none ∨ cats = []) :
    update_trend_graph cats stored f = .ok emptyFigure ∧ emptyFigure.traces = [] := by
  refine ⟨?_, rfl⟩
  rcases h with rfl | rfl
  · rfl
  · cases stored with
    | none => rfl
    | some data =>
        simp only [update_trend_graph]
        simp

theorem C8_witness :
    update_trend_graph [] (some [⟨10, "food", .str "2024-01-05"⟩]) .M
        = .ok emptyFigure ∧ emptyFigure.traces = [] :=
  C8_empty_inputs [] (some [⟨10, "food", .str "2024-01-05"⟩]) .M (Or.inr rfl)

/-! ## Claim C9 -/

theorem buildTraces_names : ∀ (df : List RawRecord) (cats : List String) (f : Freq)
    (ts : List Trace) (dfOut : List RawRecord),
    buildTraces df cats f = .ok (ts, dfOut) → ts.map Trace.name = cats
  | df, [], f, ts, dfOut, h => by
      unfold buildTraces at h
      cases h
      rfl
  | df, c :: rest, f, ts, dfOut, h => by
      unfold buildTraces at h
      split at h
      · cases h
      · split at h
        · cases h
        · cases h
          simp only [List.map_cons]
          exact congrArg₂ List.cons rfl (buildTraces_names _ rest f _ _ (by assumption))

/-- C9: whenever the chart builder succeeds on a non-empty category list, the
title and x-axis label are a deterministic function of the frequency alone
(`"Monthly Trends"`/`"Month"` for monthly, `"Weekly Trends"`/`"Week"` for
weekly), and the figure carries one line series per selected category, named
after it, in the given order (duplicates yielding duplicate series). -/
theorem C9_metadata (cats : List String) (data : List RawRecord) (f : Freq)
    (fig : Figure) (hc : cats ≠ [])
    (h : update_trend_graph cats (some data) f = .ok fig) :
    fig.title = some (if f = .M then "Monthly Trends" else "Weekly Trends") ∧
    fig.xaxisTitle = some (if f = .M then "Month" else "Week") ∧
    fig.traces.map Trace.name = cats := by
  simp only [update_trend_graph] at h
  rw [if_neg hc] at h
  cases hb : buildTraces data cats f with
  | error e => rw [hb] at h; cases h
  | ok pair =>
      obtain ⟨ts, dfOut⟩ := pair
      rw [hb] at h
      cases h
      exact ⟨rfl, rfl, buildTraces_names data cats f ts dfOut hb⟩

theorem C9_witness :
    (Figure.mk [⟨"food", [19753], [10]⟩]
        (some "Monthly Trends") (some "Month") (some "Amount")).title
      = some (if Freq.M = .M then "Monthly Trends" else "Weekly Trends") ∧
    (Figure.mk [⟨"food", [19753], [10]⟩]
        (some "Monthly Trends") (some "Month") (some "Amount")).xaxisTitle
      = some (if Freq.M = .M then "Month" else "Week") ∧
    ((Figure.mk [⟨"food", [19753], [10]⟩]
        (some "Monthly Trends") (some "Month") (some "Amount")).traces.map Trace.name
      = ["food"]) :=
  C9_metadata ["food"] [⟨10, "food", .str "2024-01-05"⟩] .M
    (Figure.mk [⟨"food", [19753], [10]⟩]
      (some "Monthly Trends") (some "Month") (some "Amount"))
    (List.cons_ne_nil _ _) rfl

/-! ## Claim C10 -/

/-- C10: for every clicked submit (`n_clicks` not `None`) with
`spending_date = None`, the handler raises — `f"{spending_date} {...}"`
interpolates the literal `None`, which `strptime('%Y-%m-%d %H:%M:%S')` rejects
— *before* the amount/category validation runs, whatever the amount, category,
clock reading or table contents.  The banner-not-exception guarantee therefore
does not extend to a missing date. -/
theorem C10_missing_date_raises (n : Nat) (amount : Option Int)
    (category : Option String) (nowTime : Nat) (store : List SpendRow) :
    update_output (some n) amount category none nowTime store = .error () := rfl

/-! ## Witnesses for the resampler claims -/

theorem C2_witness :
    ∃ pts lo hi,
      prepare_trend_data [⟨10, "food", ⟨2024, 1, 1⟩⟩, ⟨5, "food", ⟨2024, 3, 1⟩⟩]
          "food" .M = .ok pts ∧
      lo ≤ hi ∧
      (∃ r ∈ matchingRecords [⟨10, "food", ⟨2024, 1, 1⟩⟩, ⟨5, "food", ⟨2024, 3, 1⟩⟩]
          "food", bucketIdx .M r.timestamp = lo) ∧
      (∃ r ∈ matchingRecords [⟨10, "food", ⟨2024, 1, 1⟩⟩, ⟨5, "food", ⟨2024, 3, 1⟩⟩]
          "food", bucketIdx .M r.timestamp = hi) ∧
      (∀ r ∈ matchingRecords [⟨10, "food", ⟨2024, 1, 1⟩⟩, ⟨5, "food", ⟨2024, 3, 1⟩⟩]
          "food", lo ≤ bucketIdx .M r.timestamp ∧ bucketIdx .M r.timestamp ≤ hi) ∧
      pts.map TrendPoint.timestamp = (intRange lo hi).map (labelOf .M) ∧
      List.Chain' (· < ·) (pts.map TrendPoint.timestamp) ∧
      (∀ i : Int, lo ≤ i → i ≤ hi → ∃ p ∈ pts, p.timestamp = labelOf .M i ∧
        ((matchingRecords [⟨10, "food", ⟨2024, 1, 1⟩⟩, ⟨5, "food", ⟨2024, 3, 1⟩⟩]
            "food").filter (fun r => bucketIdx .M r.timestamp == i) = [] →
          p.amount = 0)) :=
  C2_contiguous_sorted [⟨10, "food", ⟨2024, 1, 1⟩⟩, ⟨5, "food", ⟨2024, 3, 1⟩⟩]
    "food" .M (by decide)

theorem C3_witness :
    ∃ pts, prepare_trend_data [⟨10, "food", ⟨2024, 1, 1⟩⟩, ⟨20, "food", ⟨2024, 1, 15⟩⟩]
        "food" .W = .ok pts ∧
      (pts.map TrendPoint.amount).sum
        = ((matchingRecords [⟨10, "food", ⟨2024, 1, 1⟩⟩, ⟨20, "food", ⟨2024, 1, 15⟩⟩]
            "food").map Record.amount).sum :=
  C3_sum_conserved [⟨10, "food", ⟨2024, 1, 1⟩⟩, ⟨20, "food", ⟨2024, 1, 15⟩⟩]
    "food" .W (by decide)

theorem C4_witness :
    ∃ pts, prepare_trend_data [⟨10, "food", ⟨2024, 1, 15⟩⟩] "food" .M = .ok pts ∧
      ∃ p ∈ pts,
        p.timestamp = labelOf .M (bucketIdx .M (⟨10, "food", ⟨2024, 1, 15⟩⟩ : Record).timestamp) ∧
        periodStart .M (bucketIdx .M (⟨10, "food", ⟨2024, 1, 15⟩⟩ : Record).timestamp)
          ≤ dayNumber (⟨10, "food", ⟨2024, 1, 15⟩⟩ : Record).timestamp ∧
        dayNumber (⟨10, "food", ⟨2024, 1, 15⟩⟩ : Record).timestamp ≤ p.timestamp ∧
        (Freq.M = .M → p.timestamp
          = dayNumber ⟨(⟨10, "food", ⟨2024, 1, 15⟩⟩ : Record).timestamp.year,
              (⟨10, "food", ⟨2024, 1, 15⟩⟩ : Record).timestamp.month,
              daysInMonth (⟨10, "food", ⟨2024, 1, 15⟩⟩ : Record).timestamp.year
                (⟨10, "food", ⟨2024, 1, 15⟩⟩ : Record).timestamp.month⟩) ∧
        (Freq.M = .W → dayOfWeek p.timestamp = 0 ∧
          p.timestamp = periodStart .M (bucketIdx .M
            (⟨10, "food", ⟨2024, 1, 15⟩⟩ : Record).timestamp) + 6) :=
  C4_amended [⟨10, "food", ⟨2024, 1, 15⟩⟩] "food" .M ⟨10, "food", ⟨2024, 1, 15⟩⟩
    (List.mem_singleton.2 rfl) rfl (by decide)
